import Mathlib

/-!
Shallow embedding of the `fetch_mandi_data` repository
(`src/fetch_mandi_data.py`, `src/predictor.py`) and proofs about its
ingestion pipeline, store writer and recursive forecast engine.

Conventions of the embedding:
* machine floats that only carry prices are modelled by `ℚ`;
* `pandas` timestamps are modelled by `ℤ` (a linear time axis in days,
  all the source does with them is compare and sort);
* `pd.to_numeric(..., errors='coerce')` and
  `pd.to_datetime(..., errors='coerce', dayfirst=True)` are external
  pandas routines; the pipeline is parametrised by them
  (`pn : Option String → Option ℚ`, `pdate : Option String → Option ℤ`),
  a `none` result standing for `NaN`/`NaT`;
* `np.log1p` / `np.expm1` inside the engine are likewise parameters
  (`l1p`, `em1 : ℚ → ℚ`); their real-number semantics is treated
  separately by `np_log1p` / `np_expm1` over `ℝ`;
* a missing MongoDB value is `Option.none`; a Python `None` field is
  `Option.none` as well;
* `model.predict` of the opaque joblib artifact is an abstract function
  `FRow → ℚ × ℚ × ℚ` returning `(yhat, yhat_lower, yhat_upper)`.
-/

namespace Mandi

/-- Python's `str.lower()` on one character (the sources only lowercase
ASCII identifiers): an ASCII uppercase letter moves down by 32. -/
def lowerChar (c : Char) : Char :=
  if c.isUpper then Char.ofNat (c.toNat + 32) else c

/-- Python's `str.lower()`. -/
def pyLower (s : String) : String := String.mk (s.data.map lowerChar)

/-! ### Configuration constants of `fetch_mandi_data.py` -/

def COMMODITIES_TO_KEEP : List String := ["Onion"]

def DAYS_TO_KEEP : ℤ := 20

def TARGET_STATE : String := "Maharashtra"

def TARGET_DISTRICTS : List String :=
  ["Ahmednagar", "Akola", "Amarawati", "Beed", "Buldhana", "Chandrapur",
   "Chattrapati Sambhajinagar", "Dharashiv(Usmanabad)", "Dhule", "Jalana",
   "Jalgaon", "Kolhapur", "Latur", "Mumbai", "Nagpur", "Nandurbar",
   "Nashik", "Pune", "Raigad", "Ratnagiri", "Sangli", "Satara",
   "Sholapur", "Thane", "Wardha"]

/-- `target_districts_lower = [d.lower() for d in TARGET_DISTRICTS]`. -/
def target_districts_lower : List String := TARGET_DISTRICTS.map pyLower

/-! ### Raw API records and `process_records`

A raw record from the data.gov.in API: any of the nine requested columns
may be missing (`df[c] = None` for absent columns), so every field is an
`Option String`. -/

structure RawRec where
  arrival_date : Option String
  state : Option String
  district : Option String
  market : Option String
  commodity : Option String
  variety : Option String
  min_price : Option String
  max_price : Option String
  modal_price : Option String
deriving DecidableEq, Repr

/-- The dataframe row after `pd.to_numeric(..., errors='coerce')` replaced
the three price columns (a failed coercion is `none`, pandas `NaN`). -/
structure CRec where
  arrival_date : Option String
  state : Option String
  district : Option String
  market : Option String
  commodity : Option String
  variety : Option String
  min_price : Option ℚ
  max_price : Option ℚ
  modal_price : Option ℚ
deriving DecidableEq, Repr

/-- The dataframe row after `pd.to_datetime` replaced `arrival_date`
and unparseable dates were dropped. -/
structure ORec where
  arrival_date : ℤ
  state : Option String
  district : Option String
  market : Option String
  commodity : Option String
  variety : Option String
  min_price : Option ℚ
  max_price : Option ℚ
  modal_price : Option ℚ
deriving DecidableEq, Repr

/-- Price-column coercion stage of `process_records`:
`df[col] = pd.to_numeric(df[col], errors='coerce')` for the three price
columns, all other columns kept. -/
def coerceRec (pn : Option String → Option ℚ) (r : RawRec) : CRec :=
  ⟨r.arrival_date, r.state, r.district, r.market, r.commodity, r.variety,
   pn r.min_price, pn r.max_price, pn r.modal_price⟩

/-- `df["commodity"].isin(COMMODITIES_TO_KEEP)` — an exact (case-sensitive)
string membership test; a missing commodity (pandas `NaN`) is not in the set. -/
def commodityKeep (c : Option String) : Bool :=
  match c with
  | some s => COMMODITIES_TO_KEEP.contains s
  | none => false

/-- `df["state"] == TARGET_STATE` — exact (case-sensitive) equality;
`NaN == TARGET_STATE` is false. -/
def stateKeep (s : Option String) : Bool :=
  decide (s = some TARGET_STATE)

/-- `df["district"].str.lower().isin(target_districts_lower)` —
case-insensitive membership; `.str.lower()` of `NaN` is `NaN`, not in the set. -/
def districtKeep (d : Option String) : Bool :=
  match d with
  | some s => target_districts_lower.contains (pyLower s)
  | none => false

/-- Descending `arrival_date` order used by `df.sort_values(by="arrival_date",
ascending=False)`. -/
def dateDesc (a b : ORec) : Prop := b.arrival_date ≤ a.arrival_date

instance : DecidableRel dateDesc :=
  fun a b => inferInstanceAs (Decidable (b.arrival_date ≤ a.arrival_date))

/-- `process_records` of `src/fetch_mandi_data.py`, stage by stage:
price coercion, `dropna(subset=['modal_price'])`, the `modal_price > 0`
filter, the commodity filter, the state filter, the district filter,
date parsing with `dropna`, the 20-day retention filter, and the final
descending sort.  `pn` models `pd.to_numeric(·, errors='coerce')`,
`pdate` models `pd.to_datetime(·, errors='coerce', dayfirst=True)`,
`now` models `datetime.now()`. -/
def process_records (pn : Option String → Option ℚ)
    (pdate : Option String → Option ℤ) (now : ℤ)
    (records : List RawRec) : List ORec :=
  let df := records.map (coerceRec pn)
  let df := df.filter (fun r => r.modal_price.isSome)
  let df := df.filter (fun r =>
    match r.modal_price with
    | some y => decide (0 < y)
    | none => false)
  let df := df.filter (fun r => commodityKeep r.commodity)
  let df := df.filter (fun r => stateKeep r.state)
  let df := df.filter (fun r => districtKeep r.district)
  let df := df.filterMap (fun r => (pdate r.arrival_date).map (fun t =>
    ORec.mk t r.state r.district r.market r.commodity r.variety
      r.min_price r.max_price r.modal_price))
  let df := df.filter (fun r => decide (now - DAYS_TO_KEEP ≤ r.arrival_date))
  List.insertionSort dateDesc df

/-! ### The MongoDB store and `store_mongo` -/

/-- A document of the `recent_crop_prices` collection, as written by
`store_mongo` (`df_mongo.to_dict(orient="records")`). -/
structure MDoc where
  commodity : Option String
  variety : Option String
  state : Option String
  district : Option String
  market : Option String
  arrival_date : ℤ
  min_price : Option ℚ
  max_price : Option ℚ
  modal_price : Option ℚ
deriving DecidableEq, Repr

/-- The document built from a processed row (`docs = df_mongo.to_dict(...)`). -/
def docOf (r : ORec) : MDoc :=
  ⟨r.commodity, r.variety, r.state, r.district, r.market, r.arrival_date,
   r.min_price, r.max_price, r.modal_price⟩

/-- The natural key of the upsert: the `query` dict of `store_mongo`
(`commodity`, `variety`, `state`, `district`, `market`, `arrival_date`). -/
def keyOf (d : MDoc) :
    Option String × Option String × Option String × Option String ×
      Option String × ℤ :=
  (d.commodity, d.variety, d.state, d.district, d.market, d.arrival_date)

/-- `UpdateOne(query, {"$set": doc}, upsert=True)` against a store with a
unique index on the key: replace the first key match, else insert. -/
def upsertOne : List MDoc → MDoc → List MDoc
  | [], d => [d]
  | x :: xs, d => if keyOf x = keyOf d then d :: xs else x :: upsertOne xs d

/-- The bulk upsert of `store_mongo`: one `UpdateOne` per document of the
batch, applied in order. -/
def store_mongo (store : List MDoc) (df : List MDoc) : List MDoc :=
  df.foldl upsertOne store

/-- The type of the natural upsert key. -/
abbrev MKey :=
  Option String × Option String × Option String × Option String ×
    Option String × ℤ

/-- The keys present in a store, in document order. -/
def storeKeys (s : List MDoc) : List MKey := s.map keyOf

/-- The first document of a store carrying a given key (what a Mongo
`UpdateOne` filter matches). -/
def lookupKey : List MDoc → MKey → Option MDoc
  | [], _ => none
  | x :: xs, k => if keyOf x = k then some x else lookupKey xs k

/-- The last document of a batch carrying a given key. -/
def lastWith : List MDoc → MKey → Option MDoc
  | [], _ => none
  | d :: t, k =>
    match lastWith t k with
    | some d' => some d'
    | none => if keyOf d = k then some d else none

/-! ### The forecast engine: `get_live_forecast` of `src/predictor.py` -/

/-- One row of `future_df`: the columns the engine reads and writes —
`ds` (renamed `arrival_date`), `y` (renamed, log-transformed `modal_price`),
the log-transformed regressors `min_price` / `max_price`, and the
`'Yesterday Price'` column (`none` is a pandas `NaN`). -/
structure FRow where
  ds : ℤ
  y : ℚ
  min_price : ℚ
  max_price : ℚ
  yesterday_price : Option ℚ
deriving DecidableEq, Repr

/-- The opaque joblib model artifact: `predict` returns
`(yhat, yhat_lower, yhat_upper)` for a feature row. -/
structure ForecastModel where
  predict : FRow → ℚ × ℚ × ℚ

/-- `MODEL_DIR` of `predictor.py`. -/
def MODEL_DIR : String := "./models/"

/-- `model_filename = f"{MODEL_DIR}{crop_name.lower()}_{variety_name.lower()}_model.joblib"`. -/
def model_filename (crop_name variety_name : String) : String :=
  MODEL_DIR ++ pyLower crop_name ++ "_" ++ pyLower variety_name ++ "_model.joblib"

/-- The result of `get_live_forecast` as seen by its caller: `notFound`
is the Python `None` return, `indexError` a raised `IndexError`,
`ok` the returned dataframe `[['ds', 'predicted_price', 'yhat_lower', 'yhat_upper']]`. -/
structure OutRow where
  ds : ℤ
  predicted_price : ℚ
  yhat_lower : ℚ
  yhat_upper : ℚ
deriving DecidableEq, Repr

inductive ForecastResult where
  | notFound
  | indexError
  | ok (rows : List OutRow)
deriving DecidableEq, Repr

/-- The Mongo query of step B:
`{"commodity": crop_name, "variety": variety_name}` — note: no region
field is part of the match. -/
def matchingDocs (store : List MDoc) (crop_name variety_name : String) :
    List MDoc :=
  store.filter (fun d =>
    decide (d.commodity = some crop_name ∧ d.variety = some variety_name))

/-- Descending `arrival_date` order of `.sort("arrival_date", -1)`. -/
def mongoDesc (a b : MDoc) : Prop := b.arrival_date ≤ a.arrival_date

instance : DecidableRel mongoDesc :=
  fun a b => inferInstanceAs (Decidable (b.arrival_date ≤ a.arrival_date))

/-- Ascending `ds` order of `recent_data.sort_values(by='ds')`. -/
def dsAsc (a b : MDoc) : Prop := a.arrival_date ≤ b.arrival_date

instance : DecidableRel dsAsc :=
  fun a b => inferInstanceAs (Decidable (a.arrival_date ≤ b.arrival_date))

/-- `collection.find(query).sort("arrival_date", -1).limit(10)`. -/
def recentDocs (store : List MDoc) (crop_name variety_name : String) :
    List MDoc :=
  (List.insertionSort mongoDesc (matchingDocs store crop_name variety_name)).take 10

/-- A row after the rename (`arrival_date → ds`, `modal_price → y`),
numeric coercion of the three price columns and
`dropna(subset=['y', 'min_price', 'max_price'])`: the stored values are
already `Option ℚ`, so `pd.to_numeric(·, errors='coerce')` keeps a
present value and a `none` becomes `NaN` which `dropna` removes. -/
structure PRow where
  ds : ℤ
  y : ℚ
  min_price : ℚ
  max_price : ℚ
deriving DecidableEq, Repr

def parseRow (d : MDoc) : Option PRow :=
  match d.modal_price, d.min_price, d.max_price with
  | some yv, some mn, some mx => some ⟨d.arrival_date, yv, mn, mx⟩
  | _, _, _ => none

/-- The sorted, coerced, `dropna`-ed rows of step C (before the log
transform): sort ascending by `ds`, then coerce and drop. -/
def parsedRows (store : List MDoc) (crop_name variety_name : String) :
    List PRow :=
  (List.insertionSort dsAsc (recentDocs store crop_name variety_name)).filterMap parseRow

/-- The log transform of step C:
`recent_data[c] = np.log1p(recent_data[c])` for `y`, `min_price`,
`max_price`; `l1p` models `np.log1p`. -/
def loggedRows (l1p : ℚ → ℚ) (store : List MDoc)
    (crop_name variety_name : String) : List PRow :=
  (parsedRows store crop_name variety_name).map
    (fun p => ⟨p.ds, l1p p.y, l1p p.min_price, l1p p.max_price⟩)

/-- `series.shift(1)`: row `i` receives the value of row `i - 1`, row `0`
becomes `NaN`. -/
def shift1 : List ℚ → List (Option ℚ)
  | [] => []
  | x :: xs => none :: ((x :: xs).dropLast.map some)

/-- First non-`NaN` value of the `'Yesterday Price'` column at or below a
position (the fill source of a backward fill). -/
def nextYesterday : List FRow → Option ℚ
  | [] => none
  | r :: rs =>
    match r.yesterday_price with
    | some v => some v
    | none => nextYesterday rs

/-- `future_df['Yesterday Price'] = future_df['Yesterday Price'].bfill()`. -/
def bfillRows : List FRow → List FRow
  | [] => []
  | r :: rs =>
    (match r.yesterday_price with
     | some _ => r
     | none => { r with yesterday_price := nextYesterday rs }) :: bfillRows rs

/-- `future_df` as it exists when the recursive loop of step D starts:
the `'Yesterday Price'` column is the shifted `y` column, the frame is
the last 7 rows (`iloc[-7:]`, all rows when fewer remain), and the column
is backward-filled. -/
def prepareFuture (l1p : ℚ → ℚ) (store : List MDoc)
    (crop_name variety_name : String) : List FRow :=
  let logged := loggedRows l1p store crop_name variety_name
  let rows := List.zipWith
    (fun p o => FRow.mk p.ds p.y p.min_price p.max_price o)
    logged (shift1 (logged.map (fun p => p.y)))
  bfillRows (rows.drop (rows.length - 7))

/-- One iteration of the step-D loop at index `i`:
`current_day_data = future_df.iloc[[i]]` (an `IndexError`, modelled by
`none`, when `i` is out of bounds), `predicted_y_log =
model.predict(current_day_data)['yhat']`, and for `i < 6` the write
`future_df.loc[future_df.index[i+1], 'Yesterday Price'] = predicted_y_log`
(again an `IndexError` when `i + 1` is out of bounds). -/
def loopStep (model : ForecastModel) (rows : List FRow) (i : Nat) :
    Option (List FRow) :=
  match rows[i]? with
  | none => none
  | some current =>
    let predicted_y_log := (model.predict current).1
    if i < 6 then
      match rows[i + 1]? with
      | none => none
      | some nxt =>
        some (rows.set (i + 1) { nxt with yesterday_price := some predicted_y_log })
    else some rows

/-- The state of `future_df` after the first `k` iterations of the
step-D loop (`none` once an iteration has raised). -/
def stepStates (model : ForecastModel) (rows : List FRow) :
    Nat → Option (List FRow)
  | 0 => some rows
  | k + 1 => (stepStates model rows k).bind (fun rs => loopStep model rs k)

/-- The full `for i in range(7)` recursive loop of step D. -/
def recursiveLoop (model : ForecastModel) (rows : List FRow) :
    Option (List FRow) :=
  stepStates model rows 7

/-- A placeholder row (only used below an index bound that never holds). -/
def dummyRow : FRow := ⟨0, 0, 0, 0, none⟩

/-- `future_df` as it stands when loop iteration `k` begins
(the empty frame when an iteration raised). -/
def stateRows (model : ForecastModel) (rows : List FRow) (k : Nat) :
    List FRow :=
  (stepStates model rows k).getD []

/-- `predicted_y_log` computed by loop iteration `i`: the model's `yhat`
on `future_df.iloc[[i]]` as it stands at that iteration. -/
def predAt (model : ForecastModel) (rows : List FRow) (i : Nat) : ℚ :=
  (model.predict ((stateRows model rows i).getD i dummyRow)).1

/-- The `'Yesterday Price'` (autoregressive) feature of horizon point `j`
after the full recursive pass. -/
def arAfter (model : ForecastModel) (rows : List FRow) (j : Nat) : Option ℚ :=
  ((stateRows model rows 7).getD j dummyRow).yesterday_price

/-- `get_live_forecast(crop_name, variety_name)` of `src/predictor.py`.
`models` is the filesystem of joblib artifacts (`joblib.load` keyed by
filename, `none` for `FileNotFoundError`), `store` the Mongo collection,
`l1p`/`em1` model `np.log1p`/`np.expm1`. -/
def get_live_forecast (l1p em1 : ℚ → ℚ)
    (models : String → Option ForecastModel) (store : List MDoc)
    (crop_name variety_name : String) : ForecastResult :=
  match models (model_filename crop_name variety_name) with
  | none => ForecastResult.notFound
  | some model =>
    if (recentDocs store crop_name variety_name).length < 7 then
      ForecastResult.notFound
    else
      match recursiveLoop model (prepareFuture l1p store crop_name variety_name) with
      | none => ForecastResult.indexError
      | some future' =>
        ForecastResult.ok (future'.map (fun r =>
          let p := model.predict r
          ⟨r.ds, em1 p.1, em1 p.2.1, em1 p.2.2⟩))

/-- `np.log1p` on the real numbers (the engine's forward transform). -/
noncomputable def np_log1p (x : ℝ) : ℝ := Real.log (1 + x)

/-- `np.expm1` on the real numbers (the engine's inverse transform). -/
noncomputable def np_expm1 (x : ℝ) : ℝ := Real.exp x - 1

/-! ### Concrete fixtures used by counterexamples and witnesses -/

/-- A deterministic stub artifact: every prediction is `(1, 0, 2)`. -/
def constModel : ForecastModel := ⟨fun _ => (1, 0, 2)⟩

/-- A model directory in which every filename loads the stub artifact. -/
def modelsConst : String → Option ForecastModel := fun _ => some constModel

/-- A second deterministic stub artifact (a test double whose predicted
value differs from `constModel`'s at every step). -/
def stubModel2 : ForecastModel := ⟨fun _ => (2, 0, 2)⟩

/-- An empty model directory (`joblib.load` always raises `FileNotFoundError`). -/
def modelsEmpty : String → Option ForecastModel := fun _ => none

/-- Decimal-digit parsing used by the concrete stand-ins for pandas
coercion (structural, so that witnesses evaluate in the kernel). -/
def digitsToNat? : List Char → Option Nat
  | [] => none
  | cs => cs.foldl (fun acc c => acc.bind (fun n =>
      if c.isDigit then some (n * 10 + (c.toNat - 48)) else none)) (some 0)

/-- A concrete instance of `pd.to_numeric(·, errors='coerce')`: decimal
digit strings parse, everything else is `NaN`. -/
def testNum (o : Option String) : Option ℚ :=
  o.bind (fun s => (digitsToNat? s.data).map (fun n => (n : ℚ)))

/-- A concrete instance of `pd.to_datetime(·, errors='coerce', dayfirst=True)`
over the `ℤ` time axis: decimal digit strings parse to their day number. -/
def testDate (o : Option String) : Option ℤ :=
  o.bind (fun s => (digitsToNat? s.data).map (fun n => (n : ℤ)))

/-- A stored observation for the forecast fixtures: `Onion`/`Red` in
Pune, market `M`, on day `d` with the given `(min, max, modal)` prices. -/
def mkDoc (d : ℤ) (mn mx mo : ℚ) : MDoc :=
  ⟨some "Onion", some "Red", some "Maharashtra", some "Pune", some "M", d,
   some mn, some mx, some mo⟩

/-- Seven parseable observations on the consecutive days 100..106. -/
def store7 : List MDoc :=
  [mkDoc 100 10 20 30, mkDoc 101 11 21 31, mkDoc 102 12 22 32,
   mkDoc 103 13 23 33, mkDoc 104 14 24 34, mkDoc 105 15 25 35,
   mkDoc 106 16 26 36]

/-- A store holding a single matching observation. -/
def store1 : List MDoc := [mkDoc 100 10 20 30]

/-- Seven matching observations of which one (day 103) has an
unparseable `modal_price` (pandas `NaN` after coercion). -/
def storeBad : List MDoc :=
  [mkDoc 100 10 20 30, mkDoc 101 11 21 31, mkDoc 102 12 22 32,
   { mkDoc 103 13 23 33 with modal_price := none },
   mkDoc 104 14 24 34, mkDoc 105 15 25 35, mkDoc 106 16 26 36]

/-- The dates of a successful forecast (`[]` otherwise). -/
def forecastDates : ForecastResult → List ℤ
  | ForecastResult.ok rows => rows.map (fun r => r.ds)
  | _ => []

/-- The columns of a feature row the recursive pass never writes:
`ds` and the two regressors. -/
def regressorCols (r : FRow) : ℤ × ℚ × ℚ := (r.ds, r.min_price, r.max_price)

/-- `future_df` after the recursive pass over `store7` with `constModel`
and the identity transform, written out. -/
def futC3 : List FRow :=
  [⟨100, 30, 10, 20, some 30⟩, ⟨101, 31, 11, 21, some 1⟩,
   ⟨102, 32, 12, 22, some 1⟩, ⟨103, 33, 13, 23, some 1⟩,
   ⟨104, 34, 14, 24, some 1⟩, ⟨105, 35, 15, 25, some 1⟩,
   ⟨106, 36, 16, 26, some 1⟩]

/-- An input record that passes every filter of `process_records`
(commodity `Onion`, state `Maharashtra`, district `Pune`, day 5). -/
def rawOnion : RawRec :=
  ⟨some "5", some "Maharashtra", some "Pune", some "MarketA", some "Onion",
   some "Red", some "90", some "110", some "100"⟩

/-- The same record with the commodity spelled `ONION` — differing from
the target value `Onion` only in letter case. -/
def rawUpperOnion : RawRec :=
  ⟨some "5", some "Maharashtra", some "Pune", some "MarketA", some "ONION",
   some "Red", some "90", some "110", some "100"⟩

/-- The processed row `process_records` produces from `rawOnion`. -/
def procOnion : ORec :=
  ⟨5, some "Maharashtra", some "Pune", some "MarketA", some "Onion",
   some "Red", some 90, some 110, some 100⟩

/-- The artifact resolution of the engine, viewed at the spec's
three-identifier boundary: `webapp.py`'s `/forecast` endpoint accepts a
`district` (region) alongside crop and variety, and `predictor.py` keys
the artifact by `model_filename(crop, variety)` alone — the region never
enters the key. -/
def artifactKey3 (_region commodity variety : String) : String :=
  model_filename commodity variety

/-- Modelled from the spec: the artifact key as §6 describes it,
"a deterministic lowercase string built from the three identifiers
joined by a fixed separator". Stated only for comparison with the
code's `model_filename`. -/
def specArtifactKey (region commodity variety : String) : String :=
  pyLower region ++ "_" ++ pyLower commodity ++ "_" ++ pyLower variety

/-! ### Store-writer lemmas (upsert semantics) -/

theorem storeKeys_upsertOne (s : List MDoc) (d : MDoc) :
    storeKeys (upsertOne s d) =
      if keyOf d ∈ storeKeys s then storeKeys s else storeKeys s ++ [keyOf d] := by
  induction s with
  | nil => simp [upsertOne, storeKeys]
  | cons x xs ih =>
    simp only [upsertOne]
    by_cases hx : keyOf x = keyOf d
    · rw [if_pos hx]
      have hmem : keyOf d ∈ storeKeys (x :: xs) := by
        simp only [storeKeys, List.map_cons, List.mem_cons]
        exact Or.inl hx.symm
      rw [if_pos hmem]
      simp only [storeKeys, List.map_cons]
      rw [hx]
    · rw [if_neg hx]
      have hiff : keyOf d ∈ storeKeys (x :: xs) ↔ keyOf d ∈ storeKeys xs := by
        simp only [storeKeys, List.map_cons, List.mem_cons]
        constructor
        · rintro (h | h)
          · exact absurd h.symm hx
          · exact h
        · exact Or.inr
      by_cases hmem : keyOf d ∈ storeKeys xs
      · rw [if_pos (hiff.mpr hmem)]
        simp only [storeKeys, List.map_cons] at ih ⊢
        simp only [storeKeys] at hmem
        rw [ih, if_pos hmem]
      · rw [if_neg (fun h => hmem (hiff.mp h))]
        simp only [storeKeys, List.map_cons] at ih ⊢
        simp only [storeKeys] at hmem
        rw [ih, if_neg hmem]
        simp

theorem lookupKey_upsertOne_self (s : List MDoc) (d : MDoc) :
    lookupKey (upsertOne s d) (keyOf d) = some d := by
  induction s with
  | nil => simp [upsertOne, lookupKey]
  | cons x xs ih =>
    by_cases hx : keyOf x = keyOf d
    · simp [upsertOne, hx, lookupKey]
    · simp [upsertOne, hx, lookupKey, ih]

theorem lookupKey_upsertOne_ne (s : List MDoc) (d : MDoc) (k : MKey)
    (h : k ≠ keyOf d) :
    lookupKey (upsertOne s d) k = lookupKey s k := by
  have h' : keyOf d ≠ k := fun he => h he.symm
  induction s with
  | nil => simp [upsertOne, lookupKey, h']
  | cons x xs ih =>
    simp only [upsertOne]
    by_cases hx : keyOf x = keyOf d
    · rw [if_pos hx]
      have hxk : keyOf x ≠ k := fun he => h' (hx.symm.trans he)
      simp only [lookupKey]
      rw [if_neg h', if_neg hxk]
    · rw [if_neg hx]
      simp only [lookupKey]
      by_cases hxk : keyOf x = k
      · rw [if_pos hxk, if_pos hxk]
      · rw [if_neg hxk, if_neg hxk, ih]

theorem lastWith_isSome_of_mem (b : List MDoc) (d : MDoc) (h : d ∈ b) :
    (lastWith b (keyOf d)).isSome := by
  induction b with
  | nil => cases h
  | cons x t ih =>
    rcases List.mem_cons.mp h with rfl | hmem
    · cases ht : lastWith t (keyOf d) with
      | some d' => simp [lastWith, ht]
      | none => simp [lastWith, ht]
    · have := ih hmem
      cases ht : lastWith t (keyOf d) with
      | some d' => simp [lastWith, ht]
      | none => rw [ht] at this; cases this

theorem mem_storeKeys_iff_lookup (s : List MDoc) (k : MKey) :
    k ∈ storeKeys s ↔ (lookupKey s k).isSome := by
  induction s with
  | nil => simp [storeKeys, lookupKey]
  | cons x xs ih =>
    simp only [storeKeys, List.map_cons, List.mem_cons, lookupKey]
    by_cases hx : keyOf x = k
    · simp [hx]
    · have hkx : k ≠ keyOf x := fun he => hx he.symm
      simp only [if_neg hx]
      simp only [storeKeys] at ih
      simp [hkx, ih]

theorem lookupKey_eq_none_of_not_mem (s : List MDoc) (k : MKey)
    (h : k ∉ storeKeys s) : lookupKey s k = none := by
  rcases ho : lookupKey s k with _ | d
  · rfl
  · exact absurd ((mem_storeKeys_iff_lookup s k).mpr (by simp [ho])) h

theorem lookupKey_store_mongo (s : List MDoc) (b : List MDoc) (k : MKey) :
    lookupKey (store_mongo s b) k =
      match lastWith b k with
      | some d => some d
      | none => lookupKey s k := by
  induction b generalizing s with
  | nil => simp [store_mongo, lastWith]
  | cons d t ih =>
    have hstep : store_mongo s (d :: t) = store_mongo (upsertOne s d) t := rfl
    rw [hstep, ih]
    cases ht : lastWith t k with
    | some d' => simp [lastWith, ht]
    | none =>
      by_cases hd : keyOf d = k
      · subst hd; simp [lastWith, ht, lookupKey_upsertOne_self]
      · simp [lastWith, ht, hd, lookupKey_upsertOne_ne s d k (fun h => hd h.symm)]

theorem storeKeys_store_mongo_of_mem (s : List MDoc) (b : List MDoc)
    (h : ∀ d ∈ b, keyOf d ∈ storeKeys s) :
    storeKeys (store_mongo s b) = storeKeys s := by
  induction b generalizing s with
  | nil => rfl
  | cons d t ih =>
    have hstep : store_mongo s (d :: t) = store_mongo (upsertOne s d) t := rfl
    have hd : keyOf d ∈ storeKeys s := h d (List.mem_cons_self d t)
    have hkeys : storeKeys (upsertOne s d) = storeKeys s := by
      rw [storeKeys_upsertOne, if_pos hd]
    rw [hstep, ih (upsertOne s d) (fun d' hd' => by
      rw [hkeys]; exact h d' (List.mem_cons_of_mem d hd')), hkeys]

theorem nodup_storeKeys_upsertOne (s : List MDoc) (d : MDoc)
    (h : (storeKeys s).Nodup) : (storeKeys (upsertOne s d)).Nodup := by
  rw [storeKeys_upsertOne]
  by_cases hmem : keyOf d ∈ storeKeys s
  · simpa [hmem]
  · simpa [hmem, List.nodup_append] using h

theorem nodup_storeKeys_store_mongo (s : List MDoc) (b : List MDoc)
    (h : (storeKeys s).Nodup) : (storeKeys (store_mongo s b)).Nodup := by
  induction b generalizing s with
  | nil => exact h
  | cons d t ih => exact ih (upsertOne s d) (nodup_storeKeys_upsertOne s d h)

theorem store_ext_of_lookup (s₁ : List MDoc) :
    ∀ s₂ : List MDoc, storeKeys s₁ = storeKeys s₂ → (storeKeys s₁).Nodup →
    (∀ k, lookupKey s₁ k = lookupKey s₂ k) → s₁ = s₂ := by
  induction s₁ with
  | nil =>
    intro s₂ hk _ _
    cases s₂ with
    | nil => rfl
    | cons y t₂ => simp [storeKeys] at hk
  | cons x t₁ ih =>
    intro s₂ hk hnd hl
    cases s₂ with
    | nil => simp [storeKeys] at hk
    | cons y t₂ =>
      simp only [storeKeys, List.map_cons, List.cons.injEq] at hk
      obtain ⟨hxy, htl⟩ := hk
      have hxeq : x = y := by
        have h₁ := hl (keyOf x)
        simp only [lookupKey, if_pos rfl] at h₁
        rw [if_pos hxy.symm] at h₁
        exact Option.some.inj h₁
      subst hxeq
      have hnd' : (storeKeys t₁).Nodup := (List.nodup_cons.mp hnd).2
      have hxnot : keyOf x ∉ storeKeys t₁ := (List.nodup_cons.mp hnd).1
      have hxnot₂ : keyOf x ∉ storeKeys t₂ := by
        simp only [storeKeys] at hxnot ⊢
        rw [← htl]
        exact hxnot
      have hl' : ∀ k, lookupKey t₁ k = lookupKey t₂ k := by
        intro k
        by_cases hkx : keyOf x = k
        · subst hkx
          rw [lookupKey_eq_none_of_not_mem t₁ _ hxnot,
            lookupKey_eq_none_of_not_mem t₂ _ hxnot₂]
        · have := hl k
          simpa [lookupKey, hkx] using this
      rw [ih t₂ htl hnd' hl']

theorem upsertOne_absorb (s : List MDoc) (d₁ d₂ : MDoc)
    (h : keyOf d₁ = keyOf d₂) :
    upsertOne (upsertOne s d₁) d₂ = upsertOne s d₂ := by
  induction s with
  | nil => simp [upsertOne, h]
  | cons x xs ih =>
    by_cases hx : keyOf x = keyOf d₁
    · simp [upsertOne, hx, h, hx.trans h]
    · have hx₂ : keyOf x ≠ keyOf d₂ := fun he => hx (he.trans h.symm)
      simp [upsertOne, hx, hx₂, ih]

/-! ### Recursive-loop lemmas -/

theorem loopStep_length (m : ForecastModel) (rs out : List FRow) (i : Nat)
    (h : loopStep m rs i = some out) : out.length = rs.length := by
  rcases hcur : rs[i]? with _ | cur
  · simp only [loopStep, hcur] at h
    simp at h
  · simp only [loopStep, hcur] at h
    by_cases hi : i < 6
    · rw [if_pos hi] at h
      rcases hnxt : rs[i + 1]? with _ | nxt
      · simp only [hnxt] at h
        simp at h
      · simp only [hnxt, Option.some.injEq] at h
        rw [← h]
        exact List.length_set ..
    · rw [if_neg hi] at h
      cases h
      rfl

theorem stepStates_isSome (m : ForecastModel) (rows : List FRow)
    (h7 : 7 ≤ rows.length) (k : Nat) (hk : k ≤ 7) :
    ∃ rs, stepStates m rows k = some rs ∧ rs.length = rows.length := by
  induction k with
  | zero => exact ⟨rows, rfl, rfl⟩
  | succ k ih =>
    obtain ⟨rs, hrs, hlen⟩ := ih (Nat.le_of_succ_le hk)
    have hklt : k < rs.length := by omega
    have hcur : ∃ cur, rs[k]? = some cur :=
      ⟨rs[k], List.getElem?_eq_getElem hklt⟩
    obtain ⟨cur, hcur⟩ := hcur
    by_cases hk6 : k < 6
    · have hnlt : k + 1 < rs.length := by omega
      have hnxt : ∃ nxt, rs[k + 1]? = some nxt :=
        ⟨rs[k + 1], List.getElem?_eq_getElem hnlt⟩
      obtain ⟨nxt, hnxt⟩ := hnxt
      refine ⟨rs.set (k + 1)
        { nxt with yesterday_price := some (m.predict cur).1 }, ?_, ?_⟩
      · show (stepStates m rows k).bind (fun rs => loopStep m rs k) = _
        rw [hrs]
        show loopStep m rs k = _
        simp only [loopStep, hcur, if_pos hk6, hnxt]
      · rw [List.length_set]; exact hlen
    · refine ⟨rs, ?_, hlen⟩
      show (stepStates m rows k).bind (fun rs => loopStep m rs k) = _
      rw [hrs]
      show loopStep m rs k = _
      simp only [loopStep, hcur, if_neg hk6]

theorem loopStep_getElem?_ne (m : ForecastModel) (rs out : List FRow)
    (i p : Nat) (h : loopStep m rs i = some out) (hp : p ≠ i + 1) :
    out[p]? = rs[p]? := by
  rcases hcur : rs[i]? with _ | cur
  · simp only [loopStep, hcur] at h
    simp at h
  · simp only [loopStep, hcur] at h
    by_cases hi : i < 6
    · rw [if_pos hi] at h
      rcases hnxt : rs[i + 1]? with _ | nxt
      · simp only [hnxt] at h
        simp at h
      · simp only [hnxt, Option.some.injEq] at h
        rw [← h]
        exact List.getElem?_set_ne (fun he => hp he.symm)
    · rw [if_neg hi] at h
      cases h
      rfl

theorem stateRows_stable (m : ForecastModel) (rows : List FRow)
    (h7 : 7 ≤ rows.length) (p k j : Nat) (hpk : p ≤ k) (hkj : k ≤ j)
    (hj : j ≤ 7) :
    (stateRows m rows j)[p]? = (stateRows m rows k)[p]? := by
  induction j, hkj using Nat.le_induction with
  | base => rfl
  | succ j hkj ih =>
    obtain ⟨rs, hrs, hlen⟩ :=
      stepStates_isSome m rows h7 j (Nat.le_of_succ_le hj)
    obtain ⟨out, hout, _⟩ := stepStates_isSome m rows h7 (j + 1) hj
    have hstep : loopStep m rs j = some out := by
      have : (stepStates m rows j).bind (fun rs => loopStep m rs j) =
          some out := hout
      rw [hrs] at this
      exact this
    have h1 : (stateRows m rows (j + 1))[p]? = rs[p]? := by
      unfold stateRows
      rw [hout]
      exact loopStep_getElem?_ne m rs out j p hstep (by omega)
    have h2 : (stateRows m rows j)[p]? = rs[p]? := by
      unfold stateRows; rw [hrs]; rfl
    rw [h1, ← h2]
    exact ih (by omega)

theorem stateRows_write (m : ForecastModel) (rows : List FRow)
    (h7 : 7 ≤ rows.length) (i : Nat) (hi : i < 6) :
    ((stateRows m rows (i + 1)).getD (i + 1) dummyRow).yesterday_price =
      some (predAt m rows i) := by
  obtain ⟨rs, hrs, hlen⟩ := stepStates_isSome m rows h7 i (by omega)
  have hklt : i < rs.length := by omega
  have hnlt : i + 1 < rs.length := by omega
  have hcur : rs[i]? = some rs[i] := List.getElem?_eq_getElem hklt
  have hnxt : rs[i + 1]? = some rs[i + 1] := List.getElem?_eq_getElem hnlt
  have hstep : stepStates m rows (i + 1) =
      some (rs.set (i + 1)
        { rs[i + 1] with yesterday_price := some (m.predict rs[i]).1 }) := by
    show (stepStates m rows i).bind (fun rs => loopStep m rs i) = _
    rw [hrs]
    show loopStep m rs i = _
    simp only [loopStep, hcur, if_pos hi, hnxt]
  have hpred : predAt m rows i = (m.predict rs[i]).1 := by
    unfold predAt stateRows
    rw [hrs]
    simp only [Option.getD_some, List.getD_eq_getElem?_getD, hcur, Option.getD_some]
  unfold stateRows
  rw [hstep]
  simp only [Option.getD_some, List.getD_eq_getElem?_getD]
  rw [List.getElem?_set_self (by omega)]
  simp [hpred]

theorem stepStates_congr (m m' : ForecastModel) (rows : List FRow) (k : Nat)
    (hag : ∀ j, j < k → predAt m rows j = predAt m' rows j) :
    stepStates m rows k = stepStates m' rows k := by
  induction k with
  | zero => rfl
  | succ k ih =>
    have hsk : stepStates m rows k = stepStates m' rows k :=
      ih (fun j hj => hag j (by omega))
    show (stepStates m rows k).bind (fun rs => loopStep m rs k) =
      (stepStates m' rows k).bind (fun rs => loopStep m' rs k)
    rw [← hsk]
    rcases hss : stepStates m rows k with _ | rs
    · rfl
    · show loopStep m rs k = loopStep m' rs k
      rcases hcur : rs[k]? with _ | cur
      · simp only [loopStep, hcur]
      · have hpk : (m.predict cur).1 = (m'.predict cur).1 := by
          have := hag k (by omega)
          unfold predAt stateRows at this
          rw [← hsk, hss] at this
          simpa [List.getD_eq_getElem?_getD, hcur] using this
        simp only [loopStep, hcur, hpk]

theorem set_of_getElem?_eq {α : Type} (l : List α) (n : Nat) (a : α)
    (h : l[n]? = some a) : l.set n a = l := by
  apply List.ext_getElem?
  intro p
  by_cases hp : p = n
  · subst hp
    obtain ⟨hlt, _⟩ := List.getElem?_eq_some.mp h
    rw [List.getElem?_set_self hlt]
    exact h.symm
  · exact List.getElem?_set_ne (fun he => hp he.symm)

theorem loopStep_map_regressorCols (m : ForecastModel) (rs out : List FRow)
    (i : Nat) (h : loopStep m rs i = some out) :
    out.map regressorCols = rs.map regressorCols := by
  rcases hcur : rs[i]? with _ | cur
  · simp only [loopStep, hcur] at h
    simp at h
  · simp only [loopStep, hcur] at h
    by_cases hi : i < 6
    · rw [if_pos hi] at h
      rcases hnxt : rs[i + 1]? with _ | nxt
      · simp only [hnxt] at h
        simp at h
      · simp only [hnxt, Option.some.injEq] at h
        rw [← h, List.map_set]
        have hmap : (rs.map regressorCols)[i + 1]? = some (regressorCols nxt) := by
          rw [List.getElem?_map, hnxt]
          rfl
        have : regressorCols
            { nxt with yesterday_price := some (m.predict cur).1 } =
            regressorCols nxt := rfl
        rw [this]
        exact set_of_getElem?_eq _ _ _ hmap
    · rw [if_neg hi] at h
      cases h
      rfl

theorem stepStates_map_regressorCols (m : ForecastModel) (rows : List FRow)
    (k : Nat) (rs : List FRow) (h : stepStates m rows k = some rs) :
    rs.map regressorCols = rows.map regressorCols := by
  induction k generalizing rs with
  | zero =>
    cases h
    rfl
  | succ k ih =>
    have hbind : (stepStates m rows k).bind (fun st => loopStep m st k) =
        some rs := h
    rcases hss : stepStates m rows k with _ | st
    · rw [hss] at hbind; cases hbind
    · rw [hss] at hbind
      have hstep : loopStep m st k = some rs := hbind
      rw [loopStep_map_regressorCols m st rs k hstep]
      exact ih st hss

/-! ### Feature-construction lemmas -/

theorem shift1_length (l : List ℚ) : (shift1 l).length = l.length := by
  cases l with
  | nil => rfl
  | cons x xs => simp [shift1]

theorem bfillRows_map_regressorCols (l : List FRow) :
    (bfillRows l).map regressorCols = l.map regressorCols := by
  induction l with
  | nil => rfl
  | cons r rs ih =>
    cases hy : r.yesterday_price with
    | none => simp [bfillRows, hy, regressorCols, ih]
    | some v => simp [bfillRows, hy, regressorCols, ih]

theorem zipWith_map_regressorCols (logged : List PRow) (sh : List (Option ℚ))
    (hlen : sh.length = logged.length) :
    (List.zipWith (fun p o => FRow.mk p.ds p.y p.min_price p.max_price o)
        logged sh).map regressorCols =
      logged.map (fun p => (p.ds, p.min_price, p.max_price)) := by
  induction logged generalizing sh with
  | nil => cases sh <;> rfl
  | cons p ps ih =>
    cases sh with
    | nil => cases hlen
    | cons o os =>
      simp only [List.zipWith, List.map_cons]
      rw [ih os (by simpa using hlen)]
      rfl

theorem prepareFuture_regressorCols (l1p : ℚ → ℚ) (store : List MDoc)
    (crop_name variety_name : String) :
    (prepareFuture l1p store crop_name variety_name).map regressorCols =
      ((parsedRows store crop_name variety_name).drop
          ((parsedRows store crop_name variety_name).length - 7)).map
        (fun p => (p.ds, l1p p.min_price, l1p p.max_price)) := by
  unfold prepareFuture
  rw [bfillRows_map_regressorCols, List.map_drop]
  have hlen : (shift1 ((loggedRows l1p store crop_name variety_name).map
      (fun p => p.y))).length =
      (loggedRows l1p store crop_name variety_name).length := by
    rw [shift1_length, List.length_map]
  rw [zipWith_map_regressorCols _ _ hlen]
  have hzlen : (List.zipWith
      (fun p o => FRow.mk p.ds p.y p.min_price p.max_price o)
      (loggedRows l1p store crop_name variety_name)
      (shift1 ((loggedRows l1p store crop_name variety_name).map
        (fun p => p.y)))).length =
      (loggedRows l1p store crop_name variety_name).length := by
    rw [List.length_zipWith, hlen, Nat.min_self]
  rw [hzlen]
  unfold loggedRows
  rw [List.map_map, List.length_map, ← List.map_drop]
  rfl

/-! ### Claim theorems -/

/-- C2: in the recursive pass, the model's prediction at horizon step `i`
determines the autoregressive (`'Yesterday Price'`) feature of step
`i + 1` and of no earlier step.  Comparing two runs whose test-double
models produced the same predictions before step `i`: every
autoregressive feature at a step `j ≤ i` is identical across the runs,
the feature of step `i + 1` is exactly the model's own prediction at
step `i`, and when the two models' predictions at step `i` differ, the
features of step `i + 1` differ. -/
theorem c2_recursive_feature_dependency (m m' : ForecastModel)
    (rows : List FRow) (i : Nat) (h7 : 7 ≤ rows.length) (hi : i < 7)
    (hag : ∀ j, j < i → predAt m rows j = predAt m' rows j) :
    (∀ j, j ≤ i → arAfter m rows j = arAfter m' rows j) ∧
    (i < 6 → arAfter m rows (i + 1) = some (predAt m rows i) ∧
      (predAt m rows i ≠ predAt m' rows i →
        arAfter m rows (i + 1) ≠ arAfter m' rows (i + 1))) := by
  constructor
  · intro j hj
    have hcongr : stepStates m rows j = stepStates m' rows j :=
      stepStates_congr m m' rows j (fun j' hj' => hag j' (by omega))
    have hs : (stateRows m rows 7)[j]? = (stateRows m rows j)[j]? :=
      stateRows_stable m rows h7 j j 7 (le_refl j) (by omega) (by omega)
    have hs' : (stateRows m' rows 7)[j]? = (stateRows m' rows j)[j]? :=
      stateRows_stable m' rows h7 j j 7 (le_refl j) (by omega) (by omega)
    unfold arAfter
    rw [List.getD_eq_getElem?_getD, List.getD_eq_getElem?_getD, hs, hs']
    unfold stateRows
    rw [hcongr]
  · intro hi6
    have hw : arAfter m rows (i + 1) = some (predAt m rows i) := by
      have hstep := stateRows_write m rows h7 i hi6
      have hs : (stateRows m rows 7)[i + 1]? =
          (stateRows m rows (i + 1))[i + 1]? :=
        stateRows_stable m rows h7 (i + 1) (i + 1) 7 (le_refl _)
          (by omega) (by omega)
      unfold arAfter
      rw [List.getD_eq_getElem?_getD, hs, ← List.getD_eq_getElem?_getD]
      exact hstep
    have hw' : arAfter m' rows (i + 1) = some (predAt m' rows i) := by
      have hstep := stateRows_write m' rows h7 i hi6
      have hs : (stateRows m' rows 7)[i + 1]? =
          (stateRows m' rows (i + 1))[i + 1]? :=
        stateRows_stable m' rows h7 (i + 1) (i + 1) 7 (le_refl _)
          (by omega) (by omega)
      unfold arAfter
      rw [List.getD_eq_getElem?_getD, hs, ← List.getD_eq_getElem?_getD]
      exact hstep
    refine ⟨hw, fun hne heq => hne ?_⟩
    rw [hw, hw'] at heq
    exact Option.some.inj heq

/-- C2 witness: the two stub models at step 0 over seven rows; their
predictions (1 vs 2) differ at step 0, so the claim's hypotheses hold
concretely. -/
theorem c2_recursive_feature_dependency_witness :
    (7 ≤ (List.replicate 7 dummyRow).length ∧ (0 : Nat) < 7 ∧
      (∀ j, j < 0 →
        predAt constModel (List.replicate 7 dummyRow) j =
          predAt stubModel2 (List.replicate 7 dummyRow) j)) ∧
    ((∀ j, j ≤ 0 →
        arAfter constModel (List.replicate 7 dummyRow) j =
          arAfter stubModel2 (List.replicate 7 dummyRow) j) ∧
     (0 < 6 →
        arAfter constModel (List.replicate 7 dummyRow) (0 + 1) =
          some (predAt constModel (List.replicate 7 dummyRow) 0) ∧
        (predAt constModel (List.replicate 7 dummyRow) 0 ≠
            predAt stubModel2 (List.replicate 7 dummyRow) 0 →
          arAfter constModel (List.replicate 7 dummyRow) (0 + 1) ≠
            arAfter stubModel2 (List.replicate 7 dummyRow) (0 + 1)))) :=
  ⟨⟨by decide, by decide, fun j hj => absurd hj (Nat.not_lt_zero j)⟩,
   c2_recursive_feature_dependency constModel stubModel2
     (List.replicate 7 dummyRow) 0 (by decide) (by decide)
     (fun j hj => absurd hj (Nat.not_lt_zero j))⟩

/-- C7: the store upsert is idempotent — running `store_mongo`'s batch a
second time leaves the store state (document list) identical, creating
zero additional documents and changing no stored field value; and for
two documents sharing the full natural key, upserting the second on top
of the first replaces the non-key fields and never duplicates, exactly
as if only the second had been upserted.  The `Nodup` hypothesis is the
unique compound index `store_mongo` creates before writing. -/
theorem c7_store_upsert_idempotent (s b : List MDoc) (d₁ d₂ : MDoc)
    (hnd : (storeKeys s).Nodup) :
    store_mongo (store_mongo s b) b = store_mongo s b ∧
    (keyOf d₁ = keyOf d₂ →
      upsertOne (upsertOne s d₁) d₂ = upsertOne s d₂) := by
  refine ⟨?_, fun h => upsertOne_absorb s d₁ d₂ h⟩
  have hkeys : ∀ d ∈ b, keyOf d ∈ storeKeys (store_mongo s b) := by
    intro d hd
    rw [mem_storeKeys_iff_lookup, lookupKey_store_mongo]
    have hs := lastWith_isSome_of_mem b d hd
    rcases hl : lastWith b (keyOf d) with _ | d'
    · rw [hl] at hs; cases hs
    · simp
  have h1 : storeKeys (store_mongo (store_mongo s b) b) =
      storeKeys (store_mongo s b) :=
    storeKeys_store_mongo_of_mem _ b hkeys
  have h2 : (storeKeys (store_mongo s b)).Nodup :=
    nodup_storeKeys_store_mongo s b hnd
  have h3 : ∀ k, lookupKey (store_mongo (store_mongo s b) b) k =
      lookupKey (store_mongo s b) k := by
    intro k
    rw [lookupKey_store_mongo, lookupKey_store_mongo s b k]
    rcases hl : lastWith b k with _ | d'
    · rfl
    · simp
  exact store_ext_of_lookup _ _ h1 (h1 ▸ h2) h3

/-- C7 witness: a batch of two documents sharing the natural key with
different prices, upserted twice into an initially empty store. -/
theorem c7_store_upsert_idempotent_witness :
    (storeKeys []).Nodup ∧
    (store_mongo (store_mongo [] [mkDoc 100 10 20 30, mkDoc 100 10 20 99])
        [mkDoc 100 10 20 30, mkDoc 100 10 20 99] =
      store_mongo [] [mkDoc 100 10 20 30, mkDoc 100 10 20 99] ∧
    (keyOf (mkDoc 100 10 20 30) = keyOf (mkDoc 100 10 20 99) →
      upsertOne (upsertOne [] (mkDoc 100 10 20 30)) (mkDoc 100 10 20 99) =
        upsertOne [] (mkDoc 100 10 20 99))) :=
  ⟨by simp [storeKeys],
   c7_store_upsert_idempotent [] [mkDoc 100 10 20 30, mkDoc 100 10 20 99]
     (mkDoc 100 10 20 30) (mkDoc 100 10 20 99) (by simp [storeKeys])⟩

/-- C1: the spec requires the 7 forecast dates to be strictly increasing
consecutive days starting one day AFTER the latest stored observation
(day 106, so 107..113).  The code instead returns the `ds` of the 7 most
recent stored observations themselves: for the concrete store `store7`
(days 100..106) the successful forecast carries the past dates 100..106,
ending at — not starting after — the latest observation. -/
theorem c1_horizon_anchored_in_past :
    forecastDates (get_live_forecast id id modelsConst store7 "Onion" "Red") =
      [100, 101, 102, 103, 104, 105, 106] ∧
    forecastDates (get_live_forecast id id modelsConst store7 "Onion" "Red") ≠
      [107, 108, 109, 110, 111, 112, 113] := by
  constructor
  · decide
  · decide

/-- C9: the engine's numeric transform pair round-trips: for every
positive real `x`, `np_expm1 (np_log1p x) = x`. -/
theorem c9_transform_roundtrip (x : ℝ) (hx : 0 < x) :
    np_expm1 (np_log1p x) = x := by
  unfold np_expm1 np_log1p
  rw [Real.exp_log (by linarith)]
  ring

/-- C9 witness: the round trip at `x = 3`. -/
theorem c9_transform_roundtrip_witness :
    (0 : ℝ) < 3 ∧ np_expm1 (np_log1p 3) = 3 :=
  ⟨by norm_num, c9_transform_roundtrip 3 (by norm_num)⟩

/-- C10: a store with 7 documents matching the query of which only 6
have numerically parseable prices makes `get_live_forecast` raise an
out-of-bounds `IndexError` inside the 7-step recursive loop, instead of
returning `None` or a forecast: the `len(recent_data) < 7` check runs
before the `dropna` that removes the unparseable row. -/
theorem c10_index_error_on_partially_parseable_store :
    get_live_forecast id id modelsConst storeBad "Onion" "Red" =
      ForecastResult.indexError ∧
    (matchingDocs storeBad "Onion" "Red").length = 7 ∧
    (parsedRows storeBad "Onion" "Red").length = 6 := by
  refine ⟨?_, ?_, ?_⟩ <;> decide

/-- C3 (amended): in every successful run of the recursive pass, the
regressor features `min_price` and `max_price` (and the date `ds`) of
the horizon points are exactly the log-transformed values of each
point's own source observation — the last (at most) 7 parsed stored
observations in ascending date order — and the recursive pass never
modifies them; they are not in general held constant at the latest
observation's values. -/
theorem c3_amended_regressors_pointwise (l1p : ℚ → ℚ) (store : List MDoc)
    (crop_name variety_name : String) (m : ForecastModel) (fut : List FRow)
    (h : recursiveLoop m (prepareFuture l1p store crop_name variety_name) =
      some fut) :
    fut.map regressorCols =
      ((parsedRows store crop_name variety_name).drop
          ((parsedRows store crop_name variety_name).length - 7)).map
        (fun p => (p.ds, l1p p.min_price, l1p p.max_price)) := by
  rw [stepStates_map_regressorCols m _ 7 fut h]
  exact prepareFuture_regressorCols l1p store crop_name variety_name

/-- C3 amended witness: the concrete pass over `store7`. -/
theorem c3_amended_regressors_pointwise_witness :
    recursiveLoop constModel (prepareFuture id store7 "Onion" "Red") =
      some futC3 ∧
    futC3.map regressorCols =
      ((parsedRows store7 "Onion" "Red").drop
          ((parsedRows store7 "Onion" "Red").length - 7)).map
        (fun p => (p.ds, id p.min_price, id p.max_price)) :=
  ⟨by decide,
   c3_amended_regressors_pointwise id store7 "Onion" "Red" constModel futC3
     (by decide)⟩

/-- C4 (amended): the artifact key is a deterministic lowercase string
built from the TWO identifiers commodity and variety joined by `_` —
it depends only on the lowercased identifiers, the region never enters
it — and an absent artifact makes the operation return the NotFound
value `None`, not raise. -/
theorem c4_amended_key_two_identifiers (l1p em1 : ℚ → ℚ)
    (models : String → Option ForecastModel) (store : List MDoc)
    (c v c' v' : String) (hc : pyLower c = pyLower c')
    (hv : pyLower v = pyLower v')
    (hnone : models (model_filename c v) = none) :
    model_filename c v = model_filename c' v' ∧
    get_live_forecast l1p em1 models store c v = ForecastResult.notFound := by
  constructor
  · unfold model_filename
    rw [hc, hv]
  · unfold get_live_forecast
    rw [hnone]

/-- C4 amended witness: `Onion`/`Red` against the empty model directory,
compared with the differently-cased `ONION`/`RED`. -/
theorem c4_amended_key_two_identifiers_witness :
    (pyLower "Onion" = pyLower "ONION" ∧ pyLower "Red" = pyLower "RED" ∧
      modelsEmpty (model_filename "Onion" "Red") = none) ∧
    (model_filename "Onion" "Red" = model_filename "ONION" "RED" ∧
      get_live_forecast id id modelsEmpty store7 "Onion" "Red" =
        ForecastResult.notFound) :=
  ⟨⟨by decide, by decide, rfl⟩,
   c4_amended_key_two_identifiers id id modelsEmpty store7
     "Onion" "Red" "ONION" "RED" (by decide) (by decide) rfl⟩

/-- C5 (amended): given a loadable artifact, the engine queries the
store for the up-to-10 most recent observations matching (commodity,
variety) — the region is not part of the match — and returns the
NotFound value `None` exactly when FEWER THAN 7 matching observations
exist; with at least 7 it always proceeds past the data check (the
result is a forecast or, per C10, an `IndexError`, but never `None`). -/
theorem c5_amended_needs_seven_documents (l1p em1 : ℚ → ℚ)
    (models : String → Option ForecastModel) (store : List MDoc)
    (crop_name variety_name : String) (m : ForecastModel)
    (hm : models (model_filename crop_name variety_name) = some m) :
    ((matchingDocs store crop_name variety_name).length < 7 →
      get_live_forecast l1p em1 models store crop_name variety_name =
        ForecastResult.notFound) ∧
    (7 ≤ (matchingDocs store crop_name variety_name).length →
      get_live_forecast l1p em1 models store crop_name variety_name ≠
        ForecastResult.notFound) := by
  have hlen : (recentDocs store crop_name variety_name).length =
      min 10 (matchingDocs store crop_name variety_name).length := by
    unfold recentDocs
    rw [List.length_take, (List.perm_insertionSort mongoDesc
      (matchingDocs store crop_name variety_name)).length_eq]
  constructor
  · intro hlt
    have hrec : (recentDocs store crop_name variety_name).length < 7 := by
      omega
    unfold get_live_forecast
    rw [hm]
    simp only [if_pos hrec]
  · intro hge
    have hrec : ¬ (recentDocs store crop_name variety_name).length < 7 := by
      omega
    unfold get_live_forecast
    rw [hm]
    simp only [if_neg hrec]
    rcases hrl : recursiveLoop m
        (prepareFuture l1p store crop_name variety_name) with _ | fut
    · simp
    · simp

/-- C5 amended witness: the stub artifact with the single-document store
(fewer than 7 matches, so `None`) — the hypotheses hold concretely. -/
theorem c5_amended_needs_seven_documents_witness :
    modelsConst (model_filename "Onion" "Red") = some constModel ∧
    (((matchingDocs store1 "Onion" "Red").length < 7 →
      get_live_forecast id id modelsConst store1 "Onion" "Red" =
        ForecastResult.notFound) ∧
    (7 ≤ (matchingDocs store1 "Onion" "Red").length →
      get_live_forecast id id modelsConst store1 "Onion" "Red" ≠
        ForecastResult.notFound)) :=
  ⟨rfl,
   c5_amended_needs_seven_documents id id modelsConst store1
     "Onion" "Red" constModel rfl⟩

/-- C6 (amended): only the district comparison of the Quality Filter is
case-insensitive (it depends only on the lowercased district); the
commodity and state comparisons are exact case-sensitive matches, as the
`Onion`/`ONION` and `Maharashtra`/`MAHARASHTRA` pairs show. -/
theorem c6_amended_only_district_case_insensitive (d d' : String)
    (hdd : pyLower d = pyLower d') :
    districtKeep (some d) = districtKeep (some d') ∧
    (commodityKeep (some "Onion") = true ∧
     commodityKeep (some "ONION") = false ∧
     stateKeep (some "Maharashtra") = true ∧
     stateKeep (some "MAHARASHTRA") = false) := by
  refine ⟨?_, by decide, by decide, by decide, by decide⟩
  show target_districts_lower.contains (pyLower d) =
    target_districts_lower.contains (pyLower d')
  rw [hdd]

/-- C6 amended witness: the district pair `PUNE`/`Pune`. -/
theorem c6_amended_only_district_case_insensitive_witness :
    pyLower "PUNE" = pyLower "Pune" ∧
    (districtKeep (some "PUNE") = districtKeep (some "Pune") ∧
     (commodityKeep (some "Onion") = true ∧
      commodityKeep (some "ONION") = false ∧
      stateKeep (some "Maharashtra") = true ∧
      stateKeep (some "MAHARASHTRA") = false)) :=
  ⟨by decide, c6_amended_only_district_case_insensitive "PUNE" "Pune" (by decide)⟩

/-- C8: filter monotonicity — every record accepted by `process_records`
stems from an input record (the accepted set is a projection-subset of
the input set), its coerced `modal_price` is positive, its commodity is
in the target commodity set and its state is the target state (both
exact, hence also case-insensitively), its district is in the target
district set case-insensitively, its `arrival_date` parsed successfully
and lies within the retention window `now - DAYS_TO_KEEP`. -/
theorem c8_filter_monotonicity (pn : Option String → Option ℚ)
    (pdate : Option String → Option ℤ) (now : ℤ) (records : List RawRec)
    (r : ORec) (hr : r ∈ process_records pn pdate now records) :
    (∃ raw ∈ records,
      r.state = raw.state ∧ r.district = raw.district ∧
      r.market = raw.market ∧ r.commodity = raw.commodity ∧
      r.variety = raw.variety ∧
      r.min_price = pn raw.min_price ∧ r.max_price = pn raw.max_price ∧
      r.modal_price = pn raw.modal_price ∧
      pdate raw.arrival_date = some r.arrival_date) ∧
    (∃ y, r.modal_price = some y ∧ 0 < y) ∧
    (∃ cc, r.commodity = some cc ∧ cc ∈ COMMODITIES_TO_KEEP) ∧
    r.state = some TARGET_STATE ∧
    (∃ dd, r.district = some dd ∧ pyLower dd ∈ target_districts_lower) ∧
    now - DAYS_TO_KEEP ≤ r.arrival_date := by
  unfold process_records at hr
  rw [(List.perm_insertionSort dateDesc _).mem_iff] at hr
  obtain ⟨hr, hdate⟩ := List.mem_filter.mp hr
  obtain ⟨c, hc, hfc⟩ := List.mem_filterMap.mp hr
  obtain ⟨hc, hdist⟩ := List.mem_filter.mp hc
  obtain ⟨hc, hstate⟩ := List.mem_filter.mp hc
  obtain ⟨hc, hcomm⟩ := List.mem_filter.mp hc
  obtain ⟨hc, hpos⟩ := List.mem_filter.mp hc
  obtain ⟨hc, _⟩ := List.mem_filter.mp hc
  obtain ⟨raw, hraw, hcoerce⟩ := List.mem_map.mp hc
  obtain ⟨t, hpd, hmk⟩ := Option.map_eq_some'.mp hfc
  subst hmk
  subst hcoerce
  refine ⟨⟨raw, hraw, rfl, rfl, rfl, rfl, rfl, rfl, rfl, rfl, ?_⟩,
    ?_, ?_, ?_, ?_, ?_⟩
  · exact hpd
  · rcases hmp : pn raw.modal_price with _ | y
    · exfalso
      simp only [coerceRec] at hpos
      rw [hmp] at hpos
      cases hpos
    · refine ⟨y, ?_, ?_⟩
      · exact hmp
      · simp only [coerceRec] at hpos
        rw [hmp] at hpos
        exact of_decide_eq_true hpos
  · rcases hcm : raw.commodity with _ | cc
    · exfalso
      simp only [commodityKeep, coerceRec] at hcomm
      rw [hcm] at hcomm
      cases hcomm
    · refine ⟨cc, ?_, ?_⟩
      · exact hcm
      · simp only [commodityKeep, coerceRec] at hcomm
        rw [hcm] at hcomm
        exact List.elem_iff.mp hcomm
  · simp only [stateKeep, coerceRec] at hstate
    exact of_decide_eq_true hstate
  · rcases hdd : raw.district with _ | dd
    · exfalso
      simp only [districtKeep, coerceRec] at hdist
      rw [hdd] at hdist
      cases hdist
    · refine ⟨dd, ?_, ?_⟩
      · exact hdd
      · simp only [districtKeep, coerceRec] at hdist
        rw [hdd] at hdist
        exact List.elem_iff.mp hdist
  · exact of_decide_eq_true hdate

/-- C8 witness: the concrete accepted record `procOnion` from the input
batch `[rawOnion]` under the concrete pandas stand-ins. -/
theorem c8_filter_monotonicity_witness :
    procOnion ∈ process_records testNum testDate 10 [rawOnion] ∧
    ((∃ raw ∈ [rawOnion],
      procOnion.state = raw.state ∧ procOnion.district = raw.district ∧
      procOnion.market = raw.market ∧ procOnion.commodity = raw.commodity ∧
      procOnion.variety = raw.variety ∧
      procOnion.min_price = testNum raw.min_price ∧
      procOnion.max_price = testNum raw.max_price ∧
      procOnion.modal_price = testNum raw.modal_price ∧
      testDate raw.arrival_date = some procOnion.arrival_date) ∧
    (∃ y, procOnion.modal_price = some y ∧ 0 < y) ∧
    (∃ cc, procOnion.commodity = some cc ∧ cc ∈ COMMODITIES_TO_KEEP) ∧
    procOnion.state = some TARGET_STATE ∧
    (∃ dd, procOnion.district = some dd ∧ pyLower dd ∈ target_districts_lower) ∧
    (10 : ℤ) - DAYS_TO_KEEP ≤ procOnion.arrival_date) :=
  ⟨by decide,
   c8_filter_monotonicity testNum testDate 10 [rawOnion] procOnion (by decide)⟩

/-- C3 counterexample: in the successful forecast over `store7` the
`min_price` regressors of the 7 horizon points are the log-values of the
7 distinct stored observations (10..16 under the identity transform),
not 7 copies of the latest observation's value 16 — the regressors are
not held constant across the horizon. -/
theorem c3_regressors_not_constant_counterexample :
    (recursiveLoop constModel (prepareFuture id store7 "Onion" "Red")).map
        (fun l => l.map (fun r => r.min_price)) =
      some [10, 11, 12, 13, 14, 15, 16] ∧
    ([10, 11, 12, 13, 14, 15, 16] : List ℚ) ≠ List.replicate 7 (16 : ℚ) ∧
    get_live_forecast id id modelsConst store7 "Onion" "Red" ≠
      ForecastResult.notFound := by
  refine ⟨?_, ?_, ?_⟩ <;> decide

/-- C4 counterexample: the code's artifact key is identical for two
different regions (it is built from commodity and variety alone: the
concrete key for Onion/Red is `./models/onion_red_model.joblib`),
whereas a key built from all three identifiers as the spec describes
would differ between the regions Pune and Nashik. -/
theorem c4_key_ignores_region_counterexample :
    artifactKey3 "Pune" "Onion" "Red" = artifactKey3 "Nashik" "Onion" "Red" ∧
    specArtifactKey "Pune" "Onion" "Red" ≠ specArtifactKey "Nashik" "Onion" "Red" ∧
    model_filename "Onion" "Red" = "./models/onion_red_model.joblib" := by
  refine ⟨?_, ?_, ?_⟩ <;> decide

/-- C5 counterexample: with the model artifact present and exactly one
matching observation stored, `get_live_forecast` returns `None` instead
of proceeding to produce a forecast — the code demands at least 7
matching documents, not at least 1. -/
theorem c5_single_observation_counterexample :
    get_live_forecast id id modelsConst store1 "Onion" "Red" =
      ForecastResult.notFound ∧
    (matchingDocs store1 "Onion" "Red").length = 1 ∧
    modelsConst (model_filename "Onion" "Red") = some constModel := by
  refine ⟨by decide, by decide, rfl⟩

/-- C6 counterexample: two input records differing only in the letter
case of the commodity (`Onion` vs `ONION`) are treated differently by
`process_records` — the exact-case record is kept and the other dropped,
so the commodity comparison is not case-insensitive. -/
theorem c6_commodity_case_sensitive_counterexample :
    process_records testNum testDate 10 [rawOnion, rawUpperOnion] = [procOnion] ∧
    rawUpperOnion.commodity = some "ONION" ∧
    pyLower "ONION" = pyLower "Onion" := by
  refine ⟨?_, ?_, ?_⟩ <;> decide

end Mandi
